import Mathlib

/-!
Shallow embedding of the profile lifecycle engine of `app/core/tag_manager.py`
(and its data model `app/core/models.py`).

Modelling conventions:
* Python floats become `ℚ` (the engine's formulas are plain field arithmetic).
* An ISO-8601 timestamp string is modelled by what `datetime.fromisoformat`
  makes of it: `some t` when it parses to a point in time (measured in days,
  so that `timedelta.days` is `Int.floor` of a difference), `none` when the
  string does not parse (`ValueError`/`TypeError` path).
* Python `dict`s (insertion ordered, unique keys) become association lists;
  lookup returns the first matching key, update rewrites the entry in place,
  a fresh key is appended at the end.
* File persistence, printing and the timeline file are I/O and are outside
  the claims; the pure state transformation of `update_tags` is embedded.
-/

namespace AQSys

/-- Result of `datetime.fromisoformat` on a stored timestamp string:
`some t` (time in days) when it parses, `none` when it raises. -/
abbrev Timestamp := Option ℚ

/-- `models.TagInfo`: one incoming tag observation. -/
structure TagInfo where
  name : String
  confidence : ℚ
  evidence : String
  category : String
  subcategory : String
  timestamp : Timestamp
deriving DecidableEq

/-- `models.TagInstance`: the persisted, reinforced/decayed record of a tag. -/
structure TagInstance where
  tag_name : String
  confidence : ℚ
  reinforcement_count : ℕ
  first_seen : Timestamp
  last_reinforced : Timestamp
  evidence_list : List String
  decay_rate : ℚ
deriving DecidableEq

/-- `models.DimensionSummary`: derived per-sub-dimension summary. -/
structure DimensionSummary where
  dimension_name : String
  subdimension_name : String
  dominant_tag : String
  confidence : ℚ
  tag_count : ℕ
  last_updated : Timestamp
deriving DecidableEq

/-- `models.UserProfile`: the aggregate root. -/
structure UserProfile where
  user_id : String
  created_at : Timestamp
  last_updated : Timestamp
  tag_dimensions : List (String × List (String × List TagInstance))
  profile_maturity : ℚ
  total_interactions : ℕ
  dimension_summaries : List DimensionSummary
deriving DecidableEq

/-- Dict lookup: value of the first entry with the given key. -/
def lookupKey {α : Type} (l : List (String × α)) (k : String) : Option α :=
  (l.find? (fun e => e.1 == k)).map (fun e => e.2)

/-- Dict membership test (`k in d`). -/
def hasKey {α : Type} (l : List (String × α)) (k : String) : Bool :=
  l.any (fun e => e.1 == k)

/-- In-place mutation of the value stored under key `k`. -/
def mapAtKey {α : Type} (l : List (String × α)) (k : String) (f : α → α) :
    List (String × α) :=
  l.map (fun e => if e.1 == k then (e.1, f e.2) else e)

/-- `if level2_category not in ...: ... = []`: create the bucket on first use. -/
def ensureKey (l : List (String × List TagInstance)) (k : String) :
    List (String × List TagInstance) :=
  if hasKey l k then l else l ++ [(k, [])]

/-- `TagManager._reinforce_tag`: bump count, stamp time, pull confidence 30%
toward the new signal capped at 1.0, append evidence keeping the last 10. -/
def reinforceTag (t : TagInstance) (info : TagInfo) : TagInstance :=
  let conf := min (t.confidence * (1 - 3/10) + info.confidence * (3/10)) 1
  let ev := t.evidence_list ++ [info.evidence]
  { t with
    reinforcement_count := t.reinforcement_count + 1
    last_reinforced := info.timestamp
    confidence := conf
    evidence_list := if 10 < ev.length then ev.drop (ev.length - 10) else ev }

/-- The fresh `TagInstance(...)` built in `_update_tag_in_dimension`
(`decay_rate` left at the dataclass default 0.1). -/
def newInstance (info : TagInfo) : TagInstance :=
  { tag_name := info.name
    confidence := info.confidence
    reinforcement_count := 1
    first_seen := info.timestamp
    last_reinforced := info.timestamp
    evidence_list := [info.evidence]
    decay_rate := 1/10 }

/-- Reinforce the first instance in the bucket whose `tag_name` matches
(the object the `for`/`break` search found), leaving every other slot alone. -/
def reinforceFirst (l : List TagInstance) (info : TagInfo) : List TagInstance :=
  match l with
  | [] => []
  | t :: ts =>
    if t.tag_name == info.name then reinforceTag t info :: ts
    else t :: reinforceFirst ts info

/-- Loop body of Python `max(..., key=...)`: the running best is replaced only
when the candidate's key is strictly greater, so ties keep the earlier one. -/
def pyMaxGo (best : TagInstance) : List TagInstance → TagInstance
  | [] => best
  | x :: xs => pyMaxGo (if best.confidence < x.confidence then x else best) xs

/-- `max(tag_list, key=lambda t: t.confidence)` guarded by the empty check. -/
def pyMax : List TagInstance → Option TagInstance
  | [] => none
  | t :: ts => some (pyMaxGo t ts)

/-- Python `list.remove`: drop the first element equal to `x`. -/
def removeFirstEq (l : List TagInstance) (x : TagInstance) : List TagInstance :=
  match l with
  | [] => []
  | t :: ts => if t = x then ts else t :: removeFirstEq ts x

/-- `TagManager._is_exclusive_dimension`. -/
def isExclusiveDimension (level1 level2 : String) : Bool :=
  level1 == "用户核心画像" && (level2 == "年龄段" || level2 == "性别")

/-- `TagManager._resolve_exclusive_conflict`: when the bucket is non-empty and
the candidate's confidence strictly exceeds the strongest instance's, remove
that strongest instance; otherwise leave the bucket unchanged. -/
def resolveExclusiveConflict (l : List TagInstance) (info : TagInfo) :
    List TagInstance :=
  match pyMax l with
  | none => l
  | some strongest =>
    if strongest.confidence < info.confidence then removeFirstEq l strongest
    else l

/-- Bucket-level body of `TagManager._update_tag_in_dimension`: reinforce a
matching instance, else resolve exclusivity and append a fresh instance. -/
def updateTagList (excl : Bool) (l : List TagInstance) (info : TagInfo) :
    List TagInstance :=
  match l.find? (fun t => t.tag_name == info.name) with
  | some _ => reinforceFirst l info
  | none =>
    let l1 := if excl then resolveExclusiveConflict l info else l
    l1 ++ [newInstance info]

/-- `TagManager._update_tag_in_dimension` on the whole profile. -/
def updateTagInDimension (p : UserProfile) (cat : String) (info : TagInfo) :
    UserProfile :=
  { p with
    tag_dimensions := mapAtKey p.tag_dimensions cat (fun subs =>
      mapAtKey (ensureKey subs info.subcategory) info.subcategory
        (fun l =>
          updateTagList (isExclusiveDimension cat info.subcategory) l info)) }

/-- Per-instance body of `TagManager._apply_time_decay`: an unparseable
`last_reinforced` skips the instance (`except` path); otherwise
`days_since = (now - last_reinforced).days` and the decay formula applies. -/
def decayInstance (now : ℚ) (t : TagInstance) : TagInstance :=
  match t.last_reinforced with
  | none => t
  | some lr =>
    let days_since : ℤ := Int.floor (now - lr)
    let decay_factor : ℚ :=
      max (1/10) (1 - (days_since : ℚ) * t.decay_rate / 30)
    let base_confidence : ℚ :=
      t.confidence / (1 + (t.reinforcement_count : ℚ) * (1/10))
    { t with confidence := max (1/10) (base_confidence * decay_factor) }

/-- Inner loop of `_apply_time_decay`: decay every bucket of one dimension. -/
def decayBuckets (now : ℚ) (subs : List (String × List TagInstance)) :
    List (String × List TagInstance) :=
  subs.map (fun b => (b.1, List.map (decayInstance now) b.2))

/-- `TagManager._apply_time_decay`: decay every instance of every bucket. -/
def applyTimeDecay (now : ℚ) (p : UserProfile) : UserProfile :=
  { p with
    tag_dimensions := p.tag_dimensions.map (fun e => (e.1, decayBuckets now e.2)) }

/-- `total_tags` accumulated by `_recalculate_metrics`. -/
def totalTags (dims : List (String × List (String × List TagInstance))) : ℕ :=
  dims.foldl (fun acc e => e.2.foldl (fun a b => a + b.2.length) acc) 0

/-- `confident_tags` accumulated by `_recalculate_metrics` (`confidence >= 0.6`). -/
def confidentTags (dims : List (String × List (String × List TagInstance))) : ℕ :=
  dims.foldl (fun acc e =>
    e.2.foldl (fun a b => a + (b.2.filter (fun t => 6/10 ≤ t.confidence)).length)
      acc) 0

/-- The per-bucket summaries rebuilt by `_recalculate_metrics` (one per
non-empty bucket, dominant = Python `max` by confidence). -/
def buildSummaries (dims : List (String × List (String × List TagInstance))) :
    List DimensionSummary :=
  dims.foldr (fun e acc =>
    e.2.foldr (fun b acc2 =>
      match pyMax b.2 with
      | none => acc2
      | some dom =>
        { dimension_name := e.1
          subdimension_name := b.1
          dominant_tag := dom.tag_name
          confidence := dom.confidence
          tag_count := b.2.length
          last_updated := dom.last_reinforced } :: acc2) acc) []

/-- `TagManager._recalculate_metrics`: rebuild summaries from scratch and
recompute `profile_maturity`. -/
def recalculateMetrics (p : UserProfile) : UserProfile :=
  let total := totalTags p.tag_dimensions
  let confident := confidentTags p.tag_dimensions
  { p with
    dimension_summaries := buildSummaries p.tag_dimensions
    profile_maturity :=
      if 0 < total then
        min 1 (((confident : ℚ) / (total : ℚ)) * ((total : ℚ) / 10))
      else 0 }

/-- One observation batch as handed to `update_tags`. -/
abbrev TagBatch := List (String × List TagInfo)

/-- The observation-routing loop of `update_tags`: categories absent from the
profile's `tag_dimensions` are silently skipped. -/
def processBatch (p : UserProfile) (extracted : TagBatch) : UserProfile :=
  extracted.foldl (fun acc e =>
    if hasKey acc.tag_dimensions e.1 then
      e.2.foldl (fun a ti => updateTagInDimension a e.1 ti) acc
    else acc) p

/-- `TagManager.update_tags` (pure state transformation; the surrounding file
I/O and timeline write are outside the embedded core). -/
def update_tags (now : ℚ) (p : UserProfile) (extracted : TagBatch) :
    UserProfile :=
  let p1 := { p with total_interactions := p.total_interactions + 1 }
  let p2 := processBatch p1 extracted
  let p3 := applyTimeDecay now p2
  let p4 := recalculateMetrics p3
  { p4 with last_updated := some now }

/-- The empty profile written by `_create_empty_tags_file`. -/
def emptyProfile (uid : String) (t : ℚ) : UserProfile :=
  { user_id := uid
    created_at := some t
    last_updated := some t
    tag_dimensions :=
      [("用户核心画像",
          [("年龄段", []), ("性别", []), ("所在地区", []), ("健康角色", [])]),
       ("产品使用路径与偏好",
          [("核心功能偏好", []), ("交互方式偏好", [])]),
       ("用户意图与转化阶段",
          [("具体意图分类", []), ("转化阶段", [])]),
       ("用户商业价值",
          [("价值等级", []), ("付费敏感度", [])])]
    profile_maturity := 0
    total_interactions := 0
    dimension_summaries := [] }

/-- A sequence of update cycles, each with its wall-clock time. -/
def runCycles (p : UserProfile) : List (ℚ × TagBatch) → UserProfile
  | [] => p
  | c :: rest => runCycles (update_tags c.1 p c.2) rest

/-- The bucket stored under `tag_dimensions[c][s]`. -/
def bucketAt (p : UserProfile) (c s : String) : Option (List TagInstance) :=
  (lookupKey p.tag_dimensions c).bind (fun subs => lookupKey subs s)

/-- The `i`-th instance of bucket `tag_dimensions[c][s]`. -/
def instAt (p : UserProfile) (c s : String) (i : ℕ) : Option TagInstance :=
  (bucketAt p c s).bind (fun l => l[i]?)

/-- `P` holds for every instance of every bucket. -/
def AllInst (P : TagInstance → Prop)
    (dims : List (String × List (String × List TagInstance))) : Prop :=
  ∀ e ∈ dims, ∀ b ∈ e.2, ∀ t ∈ b.2, P t

/-- A well-formed observation: confidence in `[0,1]` and a timestamp that
parses to a point no later than the cycle's wall clock. -/
def ValidBatch (now : ℚ) (eb : TagBatch) : Prop :=
  ∀ e ∈ eb, ∀ ti ∈ e.2,
    (0 ≤ ti.confidence ∧ ti.confidence ≤ 1) ∧
    ∃ τ, ti.timestamp = some τ ∧ τ ≤ now

/-- Cycle times are nondecreasing and every batch is well formed. -/
def ValidCycles (now0 : ℚ) : List (ℚ × TagBatch) → Prop
  | [] => True
  | c :: rest => now0 ≤ c.1 ∧ ValidBatch c.1 c.2 ∧ ValidCycles c.1 rest

/-- Instance invariant holding between the reinforcement pass and the decay
pass of a cycle at wall clock `now`: confidence in `[0,1]`, nonnegative decay
rate, and a parseable `last_reinforced` no later than `now`. -/
def PreInv (now : ℚ) (t : TagInstance) : Prop :=
  0 ≤ t.confidence ∧ t.confidence ≤ 1 ∧ 0 ≤ t.decay_rate ∧
  ∃ lr, t.last_reinforced = some lr ∧ lr ≤ now

/-- Instance invariant at the end of a cycle at wall clock `now`: confidence
clamped to `[0.1, 1]`, nonnegative decay rate, parseable timestamp `≤ now`. -/
def TagInv (now : ℚ) (t : TagInstance) : Prop :=
  1/10 ≤ t.confidence ∧ t.confidence ≤ 1 ∧ 0 ≤ t.decay_rate ∧
  ∃ lr, t.last_reinforced = some lr ∧ lr ≤ now

/-- Observation at confidence 0.4 into the exclusive sub-dimension 性别. -/
def genderObsA : TagInfo :=
  { name := "男", confidence := 2/5, evidence := "证据甲",
    category := "用户核心画像", subcategory := "性别", timestamp := some 0 }

/-- A second, weaker (0.3) observation with a distinct tag name. -/
def genderObsB : TagInfo :=
  { name := "女", confidence := 3/10, evidence := "证据乙",
    category := "用户核心画像", subcategory := "性别", timestamp := some 0 }

/-- One batch putting both observations into the exclusive bucket. -/
def exclusiveBatch : TagBatch := [("用户核心画像", [genderObsA, genderObsB])]

/-- An observation with in-range confidence 0.05 whose timestamp string does
not parse. -/
def lowObs : TagInfo :=
  { name := "角色X", confidence := 1/20, evidence := "低置信证据",
    category := "用户核心画像", subcategory := "健康角色", timestamp := none }

/-- The batch holding only `lowObs`. -/
def lowBatch : TagBatch := [("用户核心画像", [lowObs])]

/-- A well-formed observation used to exercise the clamping invariant. -/
def goodObs : TagInfo :=
  { name := "家庭健康管理者", confidence := 1/2, evidence := "正常证据",
    category := "用户核心画像", subcategory := "健康角色", timestamp := some 0 }

/-- One valid cycle at time 0 containing `goodObs`. -/
def goodCycles : List (ℚ × TagBatch) := [((0 : ℚ), [("用户核心画像", [goodObs])])]

/-- k-th observation of the repeated-reinforcement scenario; its evidence
string is the decimal rendering of `k`. -/
def evObs (k : ℕ) : TagInfo :=
  { name := "标签A", confidence := 1/2, evidence := toString k,
    category := "用户核心画像", subcategory := "健康角色", timestamp := some 0 }

/-- The instance created by `evObs 0` and then reinforced 15 times by
`evObs 1` … `evObs 15`. -/
def evScenario : TagInstance :=
  (List.range 15).foldl (fun t k => reinforceTag t (evObs (k + 1))) (newInstance (evObs 0))

/-- A concrete instance with a parseable timestamp, for decay witnesses. -/
def w3inst : TagInstance :=
  { tag_name := "标签B", confidence := 1, reinforcement_count := 1,
    first_seen := some 0, last_reinforced := some 0,
    evidence_list := ["旧证据"], decay_rate := 1/10 }

/-- A concrete instance whose timestamp does not parse. -/
def w9inst : TagInstance :=
  { tag_name := "标签C", confidence := 3/4, reinforcement_count := 2,
    first_seen := none, last_reinforced := none,
    evidence_list := ["证据1"], decay_rate := 1/10 }

/-- Existing instance at confidence 0.5, for the reinforcement witness. -/
def w4inst : TagInstance :=
  { tag_name := "运动爱好者", confidence := 1/2, reinforcement_count := 3,
    first_seen := some 0, last_reinforced := some 1,
    evidence_list := ["证据一"], decay_rate := 1/10 }

/-- Matching observation at confidence 0.9, for the reinforcement witness. -/
def w4obs : TagInfo :=
  { name := "运动爱好者", confidence := 9/10, evidence := "证据二",
    category := "用户核心画像", subcategory := "健康角色", timestamp := some 3 }

/-- Existing exclusive-bucket instance at confidence 0.4. -/
def w5inst : TagInstance :=
  { tag_name := "青年", confidence := 2/5, reinforcement_count := 1,
    first_seen := some 0, last_reinforced := some 0,
    evidence_list := ["年龄证据"], decay_rate := 1/10 }

/-- Distinct stronger candidate at confidence 0.7. -/
def w5obs : TagInfo :=
  { name := "中年", confidence := 7/10, evidence := "年龄新证据",
    category := "用户核心画像", subcategory := "年龄段", timestamp := some 2 }

/-- Distinct weaker candidate at confidence 0.3. -/
def w5obsWeak : TagInfo :=
  { name := "老年", confidence := 3/10, evidence := "年龄弱证据",
    category := "用户核心画像", subcategory := "年龄段", timestamp := some 2 }

/-- A one-instance profile used by the frame-effect witness. -/
def w10profile : UserProfile :=
  { user_id := "用户丙"
    created_at := some 0
    last_updated := some 0
    tag_dimensions := [("用户核心画像", [("健康角色", [w4inst]), ("性别", [])])]
    profile_maturity := 0
    total_interactions := 1
    dimension_summaries := [] }

theorem lookupKey_nil {α : Type} (k : String) :
    lookupKey ([] : List (String × α)) k = none := rfl

theorem lookupKey_cons {α : Type} (e : String × α) (tl : List (String × α))
    (k : String) :
    lookupKey (e :: tl) k = if e.1 == k then some e.2 else lookupKey tl k := by
  cases h : e.1 == k <;> simp [lookupKey, List.find?_cons, h]

theorem lookupKey_map {α : Type} (l : List (String × α)) (f : α → α)
    (k : String) :
    lookupKey (l.map (fun e => (e.1, f e.2))) k = (lookupKey l k).map f := by
  induction l with
  | nil => rfl
  | cons e tl ih =>
    rw [List.map_cons, lookupKey_cons, lookupKey_cons]
    cases h : e.1 == k <;> simp [h, ih]

theorem lookupKey_mapAtKey_self {α : Type} (l : List (String × α)) (k : String)
    (f : α → α) :
    lookupKey (mapAtKey l k f) k = (lookupKey l k).map f := by
  induction l with
  | nil => rfl
  | cons e tl ih =>
    rw [mapAtKey, List.map_cons]
    cases h : e.1 == k
    · rw [if_neg (by simp [h]), lookupKey_cons, lookupKey_cons, h, if_neg (by simp)]
      exact ih
    · rw [if_pos (by simp [h]), lookupKey_cons, lookupKey_cons, h]
      simp

theorem lookupKey_mapAtKey_ne {α : Type} (l : List (String × α)) {k k' : String}
    (f : α → α) (hne : k' ≠ k) :
    lookupKey (mapAtKey l k f) k' = lookupKey l k' := by
  induction l with
  | nil => rfl
  | cons e tl ih =>
    have hstep : mapAtKey (e :: tl) k f
        = (if e.1 == k then (e.1, f e.2) else e) :: mapAtKey tl k f := rfl
    rw [hstep]
    cases h : e.1 == k
    · rw [if_neg (by simp [h]), lookupKey_cons, lookupKey_cons, ih]
    · rw [if_pos (by simp [h]), lookupKey_cons, lookupKey_cons]
      have hek : e.1 = k := by simpa using h
      have h' : ¬((e.1 == k') = true) := by
        simp [hek]
        exact fun hc => hne hc.symm
      rw [if_neg h', if_neg h', ih]

theorem hasKey_of_lookup_some {α : Type} {l : List (String × α)} {k : String}
    {v : α} (h : lookupKey l k = some v) : hasKey l k = true := by
  induction l with
  | nil => simp [lookupKey] at h
  | cons e tl ih =>
    rw [lookupKey_cons] at h
    cases he : e.1 == k
    · rw [he, if_neg (by simp)] at h
      simpa [hasKey] using Or.inr (by simpa [hasKey] using ih h)
    · simp [hasKey, he]

theorem ensureKey_of_lookup_some {l : List (String × List TagInstance)}
    {k : String} {v : List TagInstance} (h : lookupKey l k = some v) :
    ensureKey l k = l := by
  rw [ensureKey, if_pos (hasKey_of_lookup_some h)]

theorem lookupKey_append_ne {α : Type} (l : List (String × α)) {k k' : String}
    (v : α) (hne : k' ≠ k) :
    lookupKey (l ++ [(k, v)]) k' = lookupKey l k' := by
  induction l with
  | nil =>
    rw [List.nil_append, lookupKey_cons, lookupKey_nil,
      if_neg (by simp; exact fun hc => hne hc.symm)]
  | cons e tl ih =>
    rw [List.cons_append, lookupKey_cons, lookupKey_cons, ih]

theorem lookupKey_ensureKey_ne (l : List (String × List TagInstance))
    {k k' : String} (hne : k' ≠ k) :
    lookupKey (ensureKey l k) k' = lookupKey l k' := by
  rw [ensureKey]
  split
  · rfl
  · exact lookupKey_append_ne l [] hne

theorem bucketAt_applyTimeDecay (now : ℚ) (p : UserProfile) (c s : String) :
    bucketAt (applyTimeDecay now p) c s =
      (bucketAt p c s).map (List.map (decayInstance now)) := by
  have hdims : (applyTimeDecay now p).tag_dimensions
      = p.tag_dimensions.map (fun e => (e.1, decayBuckets now e.2)) := rfl
  rw [bucketAt, bucketAt, hdims, lookupKey_map p.tag_dimensions (decayBuckets now) c]
  cases h : lookupKey p.tag_dimensions c with
  | none => rfl
  | some subs =>
    show lookupKey (decayBuckets now subs) s = (lookupKey subs s).map _
    rw [decayBuckets, lookupKey_map subs (List.map (decayInstance now)) s]

theorem instAt_applyTimeDecay (now : ℚ) (p : UserProfile) (c s : String)
    (i : ℕ) :
    instAt (applyTimeDecay now p) c s i =
      (instAt p c s i).map (decayInstance now) := by
  rw [instAt, instAt, bucketAt_applyTimeDecay]
  cases h : bucketAt p c s with
  | none => rfl
  | some l =>
    show (List.map (decayInstance now) l)[i]? = l[i]?.map (decayInstance now)
    exact List.getElem?_map (decayInstance now) l i

theorem mem_removeFirstEq {l : List TagInstance} {x t : TagInstance}
    (h : t ∈ removeFirstEq l x) : t ∈ l := by
  induction l with
  | nil => simp [removeFirstEq] at h
  | cons a tl ih =>
    rw [removeFirstEq] at h
    split at h
    · exact List.mem_cons_of_mem a h
    · rcases List.mem_cons.1 h with h1 | h1
      · exact h1 ▸ List.mem_cons_self a tl
      · exact List.mem_cons_of_mem a (ih h1)

theorem mem_resolveExclusiveConflict {l : List TagInstance} {info : TagInfo}
    {t : TagInstance} (h : t ∈ resolveExclusiveConflict l info) : t ∈ l := by
  unfold resolveExclusiveConflict at h
  cases hm : pyMax l with
  | none => rw [hm] at h; exact h
  | some strongest =>
    rw [hm] at h
    have h' : t ∈ (if strongest.confidence < info.confidence then
        removeFirstEq l strongest else l) := h
    by_cases hc : strongest.confidence < info.confidence
    · rw [if_pos hc] at h'
      exact mem_removeFirstEq h'
    · rw [if_neg hc] at h'
      exact h'

theorem mem_reinforceFirst {l : List TagInstance} {info : TagInfo}
    {t : TagInstance} (h : t ∈ reinforceFirst l info) :
    t ∈ l ∨ ∃ u ∈ l, t = reinforceTag u info := by
  induction l with
  | nil => simp [reinforceFirst] at h
  | cons a tl ih =>
    rw [reinforceFirst] at h
    split at h
    · rcases List.mem_cons.1 h with h1 | h1
      · exact Or.inr ⟨a, List.mem_cons_self a tl, h1⟩
      · exact Or.inl (List.mem_cons_of_mem a h1)
    · rcases List.mem_cons.1 h with h1 | h1
      · exact Or.inl (h1 ▸ List.mem_cons_self a tl)
      · rcases ih h1 with h2 | ⟨u, hu, ht⟩
        · exact Or.inl (List.mem_cons_of_mem a h2)
        · exact Or.inr ⟨u, List.mem_cons_of_mem a hu, ht⟩

theorem mem_updateTagList {excl : Bool} {l : List TagInstance} {info : TagInfo}
    {t : TagInstance} (h : t ∈ updateTagList excl l info) :
    t ∈ l ∨ (∃ u ∈ l, t = reinforceTag u info) ∨ t = newInstance info := by
  rw [updateTagList] at h
  cases hf : l.find? (fun u => u.tag_name == info.name) with
  | some u =>
    rw [hf] at h
    rcases mem_reinforceFirst h with h1 | h1
    · exact Or.inl h1
    · exact Or.inr (Or.inl h1)
  | none =>
    rw [hf] at h
    have h' : t ∈ (if excl then resolveExclusiveConflict l info else l)
        ++ [newInstance info] := h
    rcases List.mem_append.1 h' with h1 | h1
    · cases hexcl : excl
      · rw [hexcl, if_neg Bool.false_ne_true] at h1
        exact Or.inl h1
      · rw [hexcl, if_pos rfl] at h1
        exact Or.inl (mem_resolveExclusiveConflict h1)
    · exact Or.inr (Or.inr (by simpa using h1))

theorem AllInst_updateTagInDimension {P : TagInstance → Prop}
    {p : UserProfile} {cat : String} {info : TagInfo}
    (hp : AllInst P p.tag_dimensions)
    (hre : ∀ u, P u → P (reinforceTag u info))
    (hnew : P (newInstance info)) :
    AllInst P (updateTagInDimension p cat info).tag_dimensions := by
  intro e he b hb t ht
  have hdims : (updateTagInDimension p cat info).tag_dimensions
      = mapAtKey p.tag_dimensions cat (fun subs =>
          mapAtKey (ensureKey subs info.subcategory) info.subcategory
            (fun l =>
              updateTagList (isExclusiveDimension cat info.subcategory) l info)) :=
    rfl
  rw [hdims, mapAtKey] at he
  rcases List.mem_map.1 he with ⟨e0, he0, hee⟩
  by_cases hk : (e0.1 == cat) = true
  · rw [if_pos hk] at hee
    subst hee
    simp only at hb
    rw [mapAtKey] at hb
    rcases List.mem_map.1 hb with ⟨b0, hb0, hbb⟩
    have hb0mem : b0 ∈ e0.2 ∨ b0 = (info.subcategory, ([] : List TagInstance)) := by
      rw [ensureKey] at hb0
      split at hb0
      · exact Or.inl hb0
      · rcases List.mem_append.1 hb0 with h1 | h1
        · exact Or.inl h1
        · exact Or.inr (by simpa using h1)
    by_cases hk2 : (b0.1 == info.subcategory) = true
    · rw [if_pos hk2] at hbb
      subst hbb
      simp only at ht
      rcases mem_updateTagList ht with h1 | ⟨u, hu, htu⟩ | h1
      · rcases hb0mem with h2 | h2
        · exact hp e0 he0 b0 h2 t h1
        · rw [h2] at h1; simp at h1
      · rcases hb0mem with h2 | h2
        · exact htu ▸ hre u (hp e0 he0 b0 h2 u hu)
        · rw [h2] at hu; simp at hu
      · exact h1 ▸ hnew
    · rw [if_neg hk2] at hbb
      subst hbb
      rcases hb0mem with h2 | h2
      · exact hp e0 he0 b0 h2 t ht
      · exact absurd (by rw [h2]; simp) hk2
  · rw [if_neg hk] at hee
    subst hee
    exact hp e0 he0 b hb t ht

theorem AllInst_foldTags {P : TagInstance → Prop} {Q : TagInfo → Prop}
    (cat : String)
    (hre : ∀ u ti, P u → Q ti → P (reinforceTag u ti))
    (hnew : ∀ ti, Q ti → P (newInstance ti)) :
    ∀ (ts : List TagInfo) (p : UserProfile),
      AllInst P p.tag_dimensions → (∀ ti ∈ ts, Q ti) →
      AllInst P
        ((ts.foldl (fun a ti => updateTagInDimension a cat ti) p)).tag_dimensions := by
  intro ts
  induction ts with
  | nil => intro p hp _; exact hp
  | cons ti tl ih =>
    intro p hp hq
    rw [List.foldl_cons]
    refine ih (updateTagInDimension p cat ti) ?_ ?_
    · exact AllInst_updateTagInDimension hp
        (fun u hu => hre u ti hu (hq ti (List.mem_cons_self ti tl)))
        (hnew ti (hq ti (List.mem_cons_self ti tl)))
    · exact fun x hx => hq x (List.mem_cons_of_mem ti hx)

theorem AllInst_processBatch {P : TagInstance → Prop} {Q : TagInfo → Prop}
    (hre : ∀ u ti, P u → Q ti → P (reinforceTag u ti))
    (hnew : ∀ ti, Q ti → P (newInstance ti)) :
    ∀ (eb : TagBatch) (p : UserProfile),
      AllInst P p.tag_dimensions → (∀ e ∈ eb, ∀ ti ∈ e.2, Q ti) →
      AllInst P (processBatch p eb).tag_dimensions := by
  intro eb
  induction eb with
  | nil => intro p hp _; exact hp
  | cons e tl ih =>
    intro p hp hq
    rw [processBatch, List.foldl_cons]
    have hstep :
        AllInst P ((if hasKey p.tag_dimensions e.1 then
          e.2.foldl (fun a ti => updateTagInDimension a e.1 ti) p
          else p)).tag_dimensions := by
      split
      · exact AllInst_foldTags e.1 hre hnew e.2 p hp
          (fun ti hti => hq e (List.mem_cons_self e tl) ti hti)
      · exact hp
    have := ih _ hstep (fun x hx ti hti => hq x (List.mem_cons_of_mem e hx) ti hti)
    rw [processBatch] at this
    exact this

theorem AllInst_emptyProfile (P : TagInstance → Prop) (uid : String) (t0 : ℚ) :
    AllInst P (emptyProfile uid t0).tag_dimensions := by
  intro e he b hb t ht
  exfalso
  fin_cases he <;> fin_cases hb <;> simp at ht

theorem AllInst_applyTimeDecay {P Q : TagInstance → Prop} {now : ℚ}
    {p : UserProfile} (hp : AllInst P p.tag_dimensions)
    (hd : ∀ t, P t → Q (decayInstance now t)) :
    AllInst Q (applyTimeDecay now p).tag_dimensions := by
  intro e he b hb t ht
  have hdims : (applyTimeDecay now p).tag_dimensions
      = p.tag_dimensions.map (fun e => (e.1, decayBuckets now e.2)) := rfl
  rw [hdims] at he
  rcases List.mem_map.1 he with ⟨e0, he0, hee⟩
  subst hee
  simp only at hb
  rw [decayBuckets] at hb
  rcases List.mem_map.1 hb with ⟨b0, hb0, hbb⟩
  subst hbb
  simp only at ht
  rcases List.mem_map.1 ht with ⟨t0, ht0, htt⟩
  exact htt ▸ hd t0 (hp e0 he0 b0 hb0 t0 ht0)

theorem PreInv_of_TagInv {now : ℚ} {t : TagInstance} (h : TagInv now t) :
    PreInv now t :=
  ⟨le_trans (by norm_num) h.1, h.2.1, h.2.2.1, h.2.2.2⟩

theorem PreInv_mono {now now' : ℚ} (hm : now ≤ now') {t : TagInstance}
    (h : PreInv now t) : PreInv now' t := by
  obtain ⟨h0, h1, hr, lr, hlr, hle⟩ := h
  exact ⟨h0, h1, hr, lr, hlr, le_trans hle hm⟩

theorem reinforceTag_preInv {now : ℚ} {t : TagInstance} {info : TagInfo}
    (ht : PreInv now t) (hc : 0 ≤ info.confidence ∧ info.confidence ≤ 1)
    (hts : ∃ τ, info.timestamp = some τ ∧ τ ≤ now) :
    PreInv now (reinforceTag t info) := by
  obtain ⟨h0, h1, hr, lr, hlr, hle⟩ := ht
  obtain ⟨τ, hτ, hτle⟩ := hts
  refine ⟨?_, ?_, hr, τ, hτ, hτle⟩
  · show 0 ≤ min (t.confidence * (1 - 3/10) + info.confidence * (3/10)) 1
    have : (0:ℚ) ≤ t.confidence * (1 - 3/10) + info.confidence * (3/10) := by
      have := hc.1
      nlinarith
    exact le_min this (by norm_num)
  · show min (t.confidence * (1 - 3/10) + info.confidence * (3/10)) 1 ≤ 1
    exact min_le_right _ _

theorem newInstance_preInv {now : ℚ} {info : TagInfo}
    (hc : 0 ≤ info.confidence ∧ info.confidence ≤ 1)
    (hts : ∃ τ, info.timestamp = some τ ∧ τ ≤ now) :
    PreInv now (newInstance info) := by
  obtain ⟨τ, hτ, hτle⟩ := hts
  exact ⟨hc.1, hc.2, by norm_num [newInstance], τ, hτ, hτle⟩

theorem decayInstance_tagInv {now : ℚ} {t : TagInstance} (ht : PreInv now t) :
    TagInv now (decayInstance now t) := by
  obtain ⟨h0, h1, hr, lr, hlr, hle⟩ := ht
  rw [decayInstance, hlr]
  have hdays : (0:ℚ) ≤ ((Int.floor (now - lr) : ℤ) : ℚ) := by
    have : (0:ℤ) ≤ Int.floor (now - lr) := Int.floor_nonneg.mpr (by linarith)
    exact_mod_cast this
  have hden : (1:ℚ) ≤ 1 + (t.reinforcement_count : ℚ) * (1/10) := by
    have : (0:ℚ) ≤ (t.reinforcement_count : ℚ) := Nat.cast_nonneg _
    linarith
  have hbase0 : (0:ℚ) ≤ t.confidence / (1 + (t.reinforcement_count : ℚ) * (1/10)) :=
    div_nonneg h0 (by linarith)
  have hbase1 : t.confidence / (1 + (t.reinforcement_count : ℚ) * (1/10)) ≤ 1 :=
    le_trans (div_le_self h0 hden) h1
  have hfac0 : (0:ℚ) ≤
      max (1/10) (1 - ((Int.floor (now - lr) : ℤ) : ℚ) * t.decay_rate / 30) :=
    le_trans (by norm_num) (le_max_left _ _)
  have hfac1 :
      max (1/10) (1 - ((Int.floor (now - lr) : ℤ) : ℚ) * t.decay_rate / 30) ≤ 1 := by
    refine max_le (by norm_num) ?_
    have : (0:ℚ) ≤ ((Int.floor (now - lr) : ℤ) : ℚ) * t.decay_rate / 30 :=
      div_nonneg (mul_nonneg hdays hr) (by norm_num)
    linarith
  refine ⟨le_max_left _ _, ?_, hr, lr, rfl, hle⟩
  refine max_le (by norm_num) ?_
  calc t.confidence / (1 + (t.reinforcement_count : ℚ) * (1/10)) *
        max (1/10) (1 - ((Int.floor (now - lr) : ℤ) : ℚ) * t.decay_rate / 30)
      ≤ 1 * 1 := by
        exact mul_le_mul hbase1 hfac1 hfac0 (by norm_num)
    _ = 1 := by norm_num

theorem update_tags_inv {p : UserProfile} {now now' : ℚ} {eb : TagBatch}
    (hp : AllInst (TagInv now) p.tag_dimensions) (hm : now ≤ now')
    (hb : ValidBatch now' eb) :
    AllInst (TagInv now') (update_tags now' p eb).tag_dimensions := by
  have hdims : (update_tags now' p eb).tag_dimensions
      = (applyTimeDecay now'
          (processBatch { p with total_interactions := p.total_interactions + 1 }
            eb)).tag_dimensions := rfl
  rw [hdims]
  have hbase : AllInst (PreInv now')
      ({ p with total_interactions :=
          p.total_interactions + 1 } : UserProfile).tag_dimensions := by
    intro e he b hbm t ht
    exact PreInv_mono hm (PreInv_of_TagInv (hp e he b hbm t ht))
  have hre : ∀ u ti, PreInv now' u →
      ((0 ≤ ti.confidence ∧ ti.confidence ≤ 1) ∧
        ∃ τ, ti.timestamp = some τ ∧ τ ≤ now') →
      PreInv now' (reinforceTag u ti) :=
    fun u ti hu hti => reinforceTag_preInv hu hti.1 hti.2
  have hnew : ∀ ti,
      ((0 ≤ ti.confidence ∧ ti.confidence ≤ 1) ∧
        ∃ τ, ti.timestamp = some τ ∧ τ ≤ now') →
      PreInv now' (newInstance ti) :=
    fun ti hti => newInstance_preInv hti.1 hti.2
  have hpre := AllInst_processBatch hre hnew eb
    { p with total_interactions := p.total_interactions + 1 } hbase
    (fun e he ti hti => hb e he ti hti)
  exact AllInst_applyTimeDecay hpre (fun t ht => decayInstance_tagInv ht)

theorem runCycles_inv :
    ∀ (cycles : List (ℚ × TagBatch)) (p : UserProfile) (now0 : ℚ),
      AllInst (TagInv now0) p.tag_dimensions → ValidCycles now0 cycles →
      ∃ now1, AllInst (TagInv now1) (runCycles p cycles).tag_dimensions := by
  intro cycles
  induction cycles with
  | nil => exact fun p now0 hp _ => ⟨now0, hp⟩
  | cons c rest ih =>
    intro p now0 hp hv
    obtain ⟨h1, h2, h3⟩ := hv
    exact ih (update_tags c.1 p c.2) c.1 (update_tags_inv hp h1 h2) h3

theorem updateTagList_of_found {excl : Bool} {l : List TagInstance}
    {info : TagInfo} {u : TagInstance}
    (hf : l.find? (fun t => t.tag_name == info.name) = some u) :
    updateTagList excl l info = reinforceFirst l info := by
  rw [updateTagList, hf]

theorem updateTagList_of_not_found {excl : Bool} {l : List TagInstance}
    {info : TagInfo}
    (hf : l.find? (fun t => t.tag_name == info.name) = none) :
    updateTagList excl l info =
      (if excl then resolveExclusiveConflict l info else l) ++ [newInstance info] := by
  rw [updateTagList, hf]

theorem decayInstance_none {now : ℚ} {t : TagInstance}
    (h : t.last_reinforced = none) : decayInstance now t = t := by
  rw [decayInstance, h]

theorem decayInstance_evidence (now : ℚ) (t : TagInstance) :
    (decayInstance now t).evidence_list = t.evidence_list := by
  rw [decayInstance]
  cases t.last_reinforced <;> rfl

theorem reinforceTag_evidence_le (t : TagInstance) (info : TagInfo) :
    (reinforceTag t info).evidence_list.length ≤ 10 := by
  show (if 10 < (t.evidence_list ++ [info.evidence]).length then
      (t.evidence_list ++ [info.evidence]).drop
        ((t.evidence_list ++ [info.evidence]).length - 10)
    else t.evidence_list ++ [info.evidence]).length ≤ 10
  by_cases h : 10 < (t.evidence_list ++ [info.evidence]).length
  · rw [if_pos h, List.length_drop]
    omega
  · rw [if_neg h]
    omega

theorem evcap_cycle {p : UserProfile} {now : ℚ} {eb : TagBatch}
    (hp : AllInst (fun t => t.evidence_list.length ≤ 10) p.tag_dimensions) :
    AllInst (fun t => t.evidence_list.length ≤ 10)
      (update_tags now p eb).tag_dimensions := by
  have hdims : (update_tags now p eb).tag_dimensions
      = (applyTimeDecay now
          (processBatch { p with total_interactions := p.total_interactions + 1 }
            eb)).tag_dimensions := rfl
  rw [hdims]
  have hre : ∀ (u : TagInstance) (ti : TagInfo),
      u.evidence_list.length ≤ 10 → True →
      (reinforceTag u ti).evidence_list.length ≤ 10 :=
    fun u ti _ _ => reinforceTag_evidence_le u ti
  have hnew : ∀ ti : TagInfo, True → (newInstance ti).evidence_list.length ≤ 10 :=
    fun ti _ => by simp [newInstance]
  have hpre := AllInst_processBatch hre hnew eb
    { p with total_interactions := p.total_interactions + 1 } hp
    (fun _ _ _ _ => trivial)
  exact AllInst_applyTimeDecay hpre
    (fun t ht => by
      show (decayInstance now t).evidence_list.length ≤ 10
      rw [decayInstance_evidence]
      exact ht)

theorem evcap_runCycles :
    ∀ (cycles : List (ℚ × TagBatch)) (p : UserProfile),
      AllInst (fun t => t.evidence_list.length ≤ 10) p.tag_dimensions →
      AllInst (fun t => t.evidence_list.length ≤ 10)
        (runCycles p cycles).tag_dimensions := by
  intro cycles
  induction cycles with
  | nil => exact fun p hp => hp
  | cons c rest ih => exact fun p hp => ih (update_tags c.1 p c.2) (evcap_cycle hp)

theorem total_interactions_foldTags (cat : String) :
    ∀ (ts : List TagInfo) (p : UserProfile),
      (ts.foldl (fun a ti => updateTagInDimension a cat ti) p).total_interactions
        = p.total_interactions := by
  intro ts
  induction ts with
  | nil => exact fun p => rfl
  | cons ti tl ih =>
    intro p
    rw [List.foldl_cons]
    exact ih (updateTagInDimension p cat ti)

theorem total_interactions_processBatch :
    ∀ (eb : TagBatch) (p : UserProfile),
      (processBatch p eb).total_interactions = p.total_interactions := by
  intro eb
  induction eb with
  | nil => exact fun p => rfl
  | cons e tl ih =>
    intro p
    rw [processBatch, List.foldl_cons]
    have hstep := ih (if hasKey p.tag_dimensions e.1 then
      e.2.foldl (fun a ti => updateTagInDimension a e.1 ti) p else p)
    rw [processBatch] at hstep
    rw [hstep]
    split
    · exact total_interactions_foldTags e.1 e.2 p
    · rfl

/-- **C3.** In each decay pass, every instance with a parseable
`last_reinforced` gets confidence
`max(0.1, (confidence / (1 + reinforcement_count*0.1)) * max(0.1, 1 - days_since * decay_rate / 30))`
with `days_since = ⌊now - last_reinforced⌋`; the pass maps every instance at
every position of the profile, and `update_tags` runs it on the whole
post-reinforcement profile of the cycle (so same-cycle reinforced instances
are decayed too). -/
theorem claim_C3 :
    (∀ (now : ℚ) (t : TagInstance) (lr : ℚ), t.last_reinforced = some lr →
      (decayInstance now t).confidence =
        max (1/10) ((t.confidence / (1 + (t.reinforcement_count : ℚ) * (1/10))) *
          max (1/10) (1 - ((Int.floor (now - lr) : ℤ) : ℚ) * t.decay_rate / 30))) ∧
    (∀ (now : ℚ) (p : UserProfile) (c s : String) (i : ℕ),
      instAt (applyTimeDecay now p) c s i =
        (instAt p c s i).map (decayInstance now)) ∧
    (∀ (now : ℚ) (p : UserProfile) (eb : TagBatch),
      update_tags now p eb =
        { recalculateMetrics (applyTimeDecay now (processBatch
            { p with total_interactions := p.total_interactions + 1 } eb))
          with last_updated := some now }) := by
  refine ⟨?_, instAt_applyTimeDecay, fun now p eb => rfl⟩
  intro now t lr h
  rw [decayInstance, h]

/-- Witness for C3 at a concrete instance and time. -/
theorem claim_C3_witness :
    (decayInstance 5 w3inst).confidence =
      max (1/10) ((w3inst.confidence /
          (1 + (w3inst.reinforcement_count : ℚ) * (1/10))) *
        max (1/10) (1 - ((Int.floor ((5 : ℚ) - 0) : ℤ) : ℚ) * w3inst.decay_rate / 30)) :=
  claim_C3.1 5 w3inst 0 rfl

/-- **C4.** A matching observation reinforces: count `+1`, `last_reinforced`
stamped from the observation, confidence `min(1, 0.7*old + 0.3*new)`; with old
confidence 0.5 and observation confidence 0.9 this is 0.62. -/
theorem claim_C4 :
    (∀ (excl : Bool) (l : List TagInstance) (info : TagInfo) (u : TagInstance),
      l.find? (fun t => t.tag_name == info.name) = some u →
      updateTagList excl l info = reinforceFirst l info) ∧
    (∀ (t : TagInstance) (info : TagInfo),
      (reinforceTag t info).reinforcement_count = t.reinforcement_count + 1 ∧
      (reinforceTag t info).last_reinforced = info.timestamp ∧
      (reinforceTag t info).confidence =
        min (t.confidence * (1 - 3/10) + info.confidence * (3/10)) 1) ∧
    (∀ (t : TagInstance) (info : TagInfo),
      t.confidence = 1/2 → info.confidence = 9/10 →
      (reinforceTag t info).confidence = 62/100) := by
  refine ⟨fun excl l info u hf => updateTagList_of_found hf,
    fun t info => ⟨rfl, rfl, rfl⟩, ?_⟩
  intro t info h1 h2
  show min (t.confidence * (1 - 3/10) + info.confidence * (3/10)) 1 = 62/100
  rw [h1, h2]
  norm_num

/-- Witness for C4 on a concrete instance and observation. -/
theorem claim_C4_witness :
    updateTagList false [w4inst] w4obs = reinforceFirst [w4inst] w4obs ∧
    (reinforceTag w4inst w4obs).confidence = 62/100 :=
  ⟨claim_C4.1 false [w4inst] w4obs w4inst (by rfl),
   claim_C4.2.2 w4inst w4obs rfl rfl⟩

/-- **C8.** Every `update_tags` call adds exactly 1 to `total_interactions`,
whatever the batch contains; an empty batch still runs decay and metrics
recomputation over the whole profile. -/
theorem claim_C8 :
    (∀ (now : ℚ) (p : UserProfile) (eb : TagBatch),
      (update_tags now p eb).total_interactions = p.total_interactions + 1) ∧
    (∀ (now : ℚ) (p : UserProfile),
      update_tags now p [] =
        { recalculateMetrics (applyTimeDecay now
            { p with total_interactions := p.total_interactions + 1 })
          with last_updated := some now }) := by
  refine ⟨?_, fun now p => rfl⟩
  intro now p eb
  show (processBatch { p with total_interactions := p.total_interactions + 1 }
      eb).total_interactions = p.total_interactions + 1
  rw [total_interactions_processBatch]

/-- **C9.** An instance whose `last_reinforced` does not parse is left whole
by the decay pass, while the pass still maps every other instance (pointwise,
at every position); the cycle's decay is total. -/
theorem claim_C9 :
    (∀ (now : ℚ) (t : TagInstance), t.last_reinforced = none →
      decayInstance now t = t) ∧
    (∀ (now : ℚ) (p : UserProfile) (c s : String) (i : ℕ),
      instAt (applyTimeDecay now p) c s i =
        (instAt p c s i).map (decayInstance now)) :=
  ⟨fun _ _ h => decayInstance_none h, instAt_applyTimeDecay⟩

/-- Witness for C9: a concrete unparseable-timestamp instance is unchanged. -/
theorem claim_C9_witness : decayInstance 7 w9inst = w9inst :=
  claim_C9.1 7 w9inst rfl

theorem pyMaxGo_spec (ts : List TagInstance) :
    ∀ best : TagInstance,
      (pyMaxGo best ts = best ∧ ∀ y ∈ ts, y.confidence ≤ best.confidence) ∨
      (∃ (i : ℕ) (x : TagInstance), ts[i]? = some x ∧ pyMaxGo best ts = x ∧
        best.confidence < x.confidence ∧
        (∀ (j : ℕ) (y : TagInstance), j < i → ts[j]? = some y → y.confidence < x.confidence) ∧
        (∀ y ∈ ts, y.confidence ≤ x.confidence)) := by
  induction ts with
  | nil => intro best; exact Or.inl ⟨rfl, by simp⟩
  | cons a tl ih =>
    intro best
    rw [pyMaxGo]
    by_cases hba : best.confidence < a.confidence
    · rw [if_pos hba]
      rcases ih a with ⟨heq, hall⟩ | ⟨i, x, hget, heq, hlt, hbefore, hall⟩
      · refine Or.inr ⟨0, a, by simp, heq, hba, ?_, ?_⟩
        · intro j y hj _
          omega
        · intro y hy
          rcases List.mem_cons.1 hy with rfl | hy'
          · exact le_refl _
          · exact hall y hy'
      · refine Or.inr ⟨i + 1, x, by simpa using hget, heq,
          lt_trans hba hlt, ?_, ?_⟩
        · intro j y hj hget'
          cases j with
          | zero =>
            have hya : a = y := by simpa using hget'
            exact hya ▸ hlt
          | succ k =>
            exact hbefore k y (by omega) (by simpa using hget')
        · intro y hy
          rcases List.mem_cons.1 hy with rfl | hy'
          · exact le_of_lt hlt
          · exact hall y hy'
    · rw [if_neg hba]
      have hab : a.confidence ≤ best.confidence := le_of_not_lt hba
      rcases ih best with ⟨heq, hall⟩ | ⟨i, x, hget, heq, hlt, hbefore, hall⟩
      · refine Or.inl ⟨heq, ?_⟩
        intro y hy
        rcases List.mem_cons.1 hy with rfl | hy'
        · exact hab
        · exact hall y hy'
      · refine Or.inr ⟨i + 1, x, by simpa using hget, heq, hlt, ?_, ?_⟩
        · intro j y hj hget'
          cases j with
          | zero =>
            have hya : a = y := by simpa using hget'
            exact hya ▸ lt_of_le_of_lt hab hlt
          | succ k =>
            exact hbefore k y (by omega) (by simpa using hget')
        · intro y hy
          rcases List.mem_cons.1 hy with rfl | hy'
          · exact le_trans hab (le_of_lt hlt)
          · exact hall y hy'

theorem pyMax_spec {l : List TagInstance} {m : TagInstance}
    (h : pyMax l = some m) :
    ∃ i : ℕ, l[i]? = some m ∧
      (∀ (j : ℕ) (y : TagInstance), j < i → l[j]? = some y → y.confidence < m.confidence) ∧
      (∀ y ∈ l, y.confidence ≤ m.confidence) := by
  cases l with
  | nil => simp [pyMax] at h
  | cons a tl =>
    rw [pyMax] at h
    injection h with h
    rcases pyMaxGo_spec tl a with ⟨heq, hall⟩ | ⟨i, x, hget, heq, hlt, hbefore, hall⟩
    · have hma : m = a := h ▸ heq
      subst hma
      refine ⟨0, by simp, ?_, ?_⟩
      · intro j y hj _
        omega
      · intro y hy
        rcases List.mem_cons.1 hy with rfl | hy'
        · exact le_refl _
        · exact hall y hy'
    · have hmx : m = x := h ▸ heq
      subst hmx
      refine ⟨i + 1, by simpa using hget, ?_, ?_⟩
      · intro j y hj hget'
        cases j with
        | zero =>
          have hya : a = y := by simpa using hget'
          exact hya ▸ hlt
        | succ k =>
          exact hbefore k y (by omega) (by simpa using hget')
      · intro y hy
        rcases List.mem_cons.1 hy with rfl | hy'
        · exact le_of_lt hlt
        · exact hall y hy'

theorem removeFirstEq_firstMax {l : List TagInstance} {m : TagInstance} :
    ∀ {i : ℕ}, l[i]? = some m →
      (∀ (j : ℕ) (y : TagInstance), j < i → l[j]? = some y → y.confidence < m.confidence) →
      removeFirstEq l m = l.eraseIdx i := by
  induction l with
  | nil => intro i hget _; simp at hget
  | cons a tl ih =>
    intro i hget hbefore
    cases i with
    | zero =>
      have ham : a = m := by simpa using hget
      rw [removeFirstEq, if_pos ham]
      rfl
    | succ k =>
      have hlt := hbefore 0 a (by omega) (by simp)
      have hne : a ≠ m := fun he => absurd (he ▸ hlt) (lt_irrefl _)
      rw [removeFirstEq, if_neg hne,
        ih (by simpa using hget)
          (fun j y hj hg => hbefore (j + 1) y (by omega) (by simpa using hg))]
      rfl

/-- **C5.** The exclusivity resolver: an empty bucket is untouched; a
candidate at confidence ≤ the bucket's maximum removes nothing; a candidate
strictly above the maximum removes exactly the first maximum-confidence
instance; in all non-matching cases the new instance is then appended. -/
theorem claim_C5 :
    (∀ info : TagInfo, resolveExclusiveConflict [] info = []) ∧
    (∀ (l : List TagInstance) (info : TagInfo) (s : TagInstance),
      pyMax l = some s → info.confidence ≤ s.confidence →
      resolveExclusiveConflict l info = l) ∧
    (∀ (l : List TagInstance) (info : TagInfo) (s : TagInstance),
      pyMax l = some s → s.confidence < info.confidence →
      ∃ i : ℕ, l[i]? = some s ∧
        (∀ (j : ℕ) (y : TagInstance), j < i → l[j]? = some y → y.confidence < s.confidence) ∧
        (∀ y ∈ l, y.confidence ≤ s.confidence) ∧
        resolveExclusiveConflict l info = l.eraseIdx i) ∧
    (∀ (excl : Bool) (l : List TagInstance) (info : TagInfo),
      l.find? (fun t => t.tag_name == info.name) = none →
      updateTagList excl l info =
        (if excl then resolveExclusiveConflict l info else l)
          ++ [newInstance info]) := by
  refine ⟨fun info => rfl, ?_, ?_, fun excl l info hf => updateTagList_of_not_found hf⟩
  · intro l info s hm hle
    have hstep : resolveExclusiveConflict l info
        = if s.confidence < info.confidence then removeFirstEq l s else l := by
      rw [resolveExclusiveConflict, hm]
    rw [hstep, if_neg (not_lt.mpr hle)]
  · intro l info s hm hlt
    obtain ⟨i, hget, hbefore, hall⟩ := pyMax_spec hm
    refine ⟨i, hget, hbefore, hall, ?_⟩
    have hstep : resolveExclusiveConflict l info
        = if s.confidence < info.confidence then removeFirstEq l s else l := by
      rw [resolveExclusiveConflict, hm]
    rw [hstep, if_pos hlt]
    exact removeFirstEq_firstMax hget hbefore

/-- Witness for C5: a 0.4-confidence instance is removed by a 0.7 candidate,
kept alongside a 0.3 candidate, and the candidate is appended. -/
theorem claim_C5_witness :
    resolveExclusiveConflict [w5inst] w5obsWeak = [w5inst] ∧
    (∃ i : ℕ, [w5inst][i]? = some w5inst ∧
      (∀ (j : ℕ) (y : TagInstance), j < i → [w5inst][j]? = some y → y.confidence < w5inst.confidence) ∧
      (∀ y ∈ [w5inst], y.confidence ≤ w5inst.confidence) ∧
      resolveExclusiveConflict [w5inst] w5obs = [w5inst].eraseIdx i) ∧
    updateTagList true [w5inst] w5obs =
      (if true then resolveExclusiveConflict [w5inst] w5obs else [w5inst])
        ++ [newInstance w5obs] :=
  ⟨claim_C5.2.1 [w5inst] w5obsWeak w5inst rfl (by norm_num [w5inst, w5obsWeak]),
   claim_C5.2.2.1 [w5inst] w5obs w5inst rfl (by norm_num [w5inst, w5obs]),
   claim_C5.2.2.2 true [w5inst] w5obs (by rfl)⟩

/-- **C1 (amended).** A bucket of an exclusive sub-dimension that holds at
most one instance still holds at most one after an observation that either
matches the existing tag name or strictly exceeds every present instance's
confidence; the unconditional claim fails (see the counterexample). -/
theorem claim_C1 (l : List TagInstance) (info : TagInfo)
    (hlen : l.length ≤ 1)
    (hcase : (l.find? (fun t => t.tag_name == info.name)).isSome = true ∨
      ∀ t ∈ l, t.confidence < info.confidence) :
    (updateTagList true l info).length ≤ 1 := by
  cases hf : l.find? (fun t => t.tag_name == info.name) with
  | some u =>
    rw [updateTagList_of_found hf]
    cases l with
    | nil => simp [reinforceFirst]
    | cons a tl =>
      cases tl with
      | nil =>
        rw [reinforceFirst]
        by_cases h : (a.tag_name == info.name) = true
        · rw [if_pos h]
          rfl
        · rw [if_neg h]
          simp [reinforceFirst]
      | cons b tl2 => simp at hlen
  | none =>
    rw [updateTagList_of_not_found hf, if_pos rfl]
    rcases hcase with hsome | hall
    · rw [hf] at hsome
      simp at hsome
    · cases l with
      | nil =>
        have h0 : resolveExclusiveConflict [] info = [] := rfl
        rw [h0]
        simp
      | cons a tl =>
        cases tl with
        | nil =>
          have hmax : pyMax [a] = some a := rfl
          have hlt := hall a (List.mem_cons_self a [])
          have hstep : resolveExclusiveConflict [a] info
              = if a.confidence < info.confidence then removeFirstEq [a] a
                else [a] := by
            rw [resolveExclusiveConflict, hmax]
          rw [hstep, if_pos hlt, removeFirstEq, if_pos rfl]
          simp
        | cons b tl2 => simp at hlen

/-- Counterexample to C1 as stated: one cycle on the fresh profile puts two
instances into the exclusive bucket 性别 (the weaker distinct candidate is
inserted alongside instead of being pruned). -/
theorem claim_C1_counterexample :
    isExclusiveDimension "用户核心画像" "性别" = true ∧
    (bucketAt (update_tags 0 (emptyProfile "用户甲" 0) exclusiveBatch)
        "用户核心画像" "性别").map List.length = some 2 := by
  constructor
  · rfl
  · simp [update_tags, processBatch, updateTagInDimension, updateTagList, mapAtKey,
      ensureKey, hasKey, lookupKey, bucketAt, emptyProfile, exclusiveBatch, genderObsA,
      genderObsB, isExclusiveDimension, resolveExclusiveConflict, pyMax, pyMaxGo,
      removeFirstEq, reinforceFirst, newInstance, reinforceTag, applyTimeDecay,
      decayBuckets, decayInstance, recalculateMetrics, totalTags, confidentTags,
      buildSummaries, List.find?]
    norm_num

/-- Witness for the amended C1 on the concrete 0.4-vs-0.7 scenario. -/
theorem claim_C1_witness :
    [w5inst].length ≤ 1 ∧ (updateTagList true [w5inst] w5obs).length ≤ 1 :=
  ⟨by norm_num,
   claim_C1 [w5inst] w5obs (by norm_num)
     (Or.inr (by
       intro t ht
       rcases List.mem_cons.1 ht with rfl | h
       · norm_num [w5inst, w5obs]
       · simp at h))⟩

/-- **C2 (amended).** Starting from the fresh profile, for every sequence of
cycles whose observations carry confidence in `[0,1]` and timestamps that
parse to points no later than the (nondecreasing) cycle clocks, every
instance's confidence lies in `[0.1, 1]` after the run — and since the
statement quantifies over all such sequences, after every cycle of any run.
The unconditional claim (arbitrary timestamps) fails, see the
counterexample. -/
theorem claim_C2 (uid : String) (now0 : ℚ) (cycles : List (ℚ × TagBatch))
    (hv : ValidCycles now0 cycles) :
    ∀ e ∈ (runCycles (emptyProfile uid now0) cycles).tag_dimensions,
      ∀ b ∈ e.2, ∀ t ∈ b.2, 1/10 ≤ t.confidence ∧ t.confidence ≤ 1 := by
  obtain ⟨now1, h⟩ :=
    runCycles_inv cycles (emptyProfile uid now0) now0
      (AllInst_emptyProfile (TagInv now0) uid now0) hv
  intro e he b hb t ht
  obtain ⟨h1, h2, _⟩ := h e he b hb t ht
  exact ⟨h1, h2⟩

/-- Counterexample to C2 as stated: a single observation with confidence 0.05
(inside `[0,1]`) whose timestamp string does not parse leaves an instance at
confidence 0.05 at the end of the cycle, below the claimed floor 0.1. -/
theorem claim_C2_counterexample :
    (∀ e ∈ lowBatch, ∀ ti ∈ e.2, 0 ≤ ti.confidence ∧ ti.confidence ≤ 1) ∧
    (instAt (update_tags 0 (emptyProfile "用户乙" 0) lowBatch)
        "用户核心画像" "健康角色" 0).map TagInstance.confidence = some (1/20) ∧
    ¬((1:ℚ)/10 ≤ 1/20) := by
  refine ⟨?_, rfl, by norm_num⟩
  intro e he ti hti
  have he' : e = ("用户核心画像", [lowObs]) := by simpa [lowBatch] using he
  subst he'
  have hti' : ti = lowObs := by simpa using hti
  subst hti'
  constructor <;> norm_num [lowObs]

/-- Witness for the amended C2 on one concrete valid cycle. -/
theorem claim_C2_witness :
    ValidCycles 0 goodCycles ∧
    ∀ e ∈ (runCycles (emptyProfile "用户戊" 0) goodCycles).tag_dimensions,
      ∀ b ∈ e.2, ∀ t ∈ b.2, 1/10 ≤ t.confidence ∧ t.confidence ≤ 1 := by
  have hv : ValidCycles 0 goodCycles := by
    refine ⟨le_refl 0, ?_, trivial⟩
    intro e he ti hti
    have he' : e = ("用户核心画像", [goodObs]) := by simpa [goodCycles] using he
    subst he'
    have hti' : ti = goodObs := by simpa using hti
    subst hti'
    exact ⟨⟨by norm_num [goodObs], by norm_num [goodObs]⟩, 0, rfl, le_refl 0⟩
  exact ⟨hv, claim_C2 "用户戊" 0 goodCycles hv⟩

/-- **C6.** After every cycle, `profile_maturity` is 0 when the profile holds
no instances and `min(1, (confident/total)*(total/10))` otherwise; total 10
with confident 10 gives exactly 1. -/
theorem claim_C6 (now : ℚ) (p : UserProfile) (eb : TagBatch) :
    (totalTags (update_tags now p eb).tag_dimensions = 0 →
      (update_tags now p eb).profile_maturity = 0) ∧
    (0 < totalTags (update_tags now p eb).tag_dimensions →
      (update_tags now p eb).profile_maturity =
        min 1 (((confidentTags (update_tags now p eb).tag_dimensions : ℚ) /
            (totalTags (update_tags now p eb).tag_dimensions : ℚ)) *
          ((totalTags (update_tags now p eb).tag_dimensions : ℚ) / 10))) ∧
    (totalTags (update_tags now p eb).tag_dimensions = 10 →
      confidentTags (update_tags now p eb).tag_dimensions = 10 →
      (update_tags now p eb).profile_maturity = 1) := by
  have hmat : (update_tags now p eb).profile_maturity =
      if 0 < totalTags (update_tags now p eb).tag_dimensions then
        min 1 (((confidentTags (update_tags now p eb).tag_dimensions : ℚ) /
            (totalTags (update_tags now p eb).tag_dimensions : ℚ)) *
          ((totalTags (update_tags now p eb).tag_dimensions : ℚ) / 10))
      else 0 := rfl
  refine ⟨fun h0 => ?_, fun hpos => ?_, fun h10 hc10 => ?_⟩
  · rw [hmat, h0]
    norm_num
  · rw [hmat, if_pos hpos]
  · rw [hmat, h10, hc10]
    norm_num

/-- Witness for C6: the empty batch on the fresh profile gives maturity 0. -/
theorem claim_C6_witness :
    totalTags (update_tags 0 (emptyProfile "用户丁" 0) []).tag_dimensions = 0 ∧
    (update_tags 0 (emptyProfile "用户丁" 0) []).profile_maturity = 0 :=
  ⟨rfl, (claim_C6 0 (emptyProfile "用户丁" 0) []).1 rfl⟩

/-- **C7.** Over every run from the fresh profile, no instance's
`evidence_list` ever exceeds 10 entries; reinforcing one tag 15 times leaves
exactly the 10 most recent evidence strings in submission order. -/
theorem claim_C7 :
    (∀ (uid : String) (now0 : ℚ) (cycles : List (ℚ × TagBatch)),
      ∀ e ∈ (runCycles (emptyProfile uid now0) cycles).tag_dimensions,
        ∀ b ∈ e.2, ∀ t ∈ b.2, t.evidence_list.length ≤ 10) ∧
    evScenario.evidence_list =
      ["6", "7", "8", "9", "10", "11", "12", "13", "14", "15"] := by
  constructor
  · intro uid now0 cycles
    exact evcap_runCycles cycles (emptyProfile uid now0)
      (AllInst_emptyProfile (fun t => t.evidence_list.length ≤ 10) uid now0)
  · rfl

theorem set_getElem_other (v : TagInstance) (l : List TagInstance) (i j : ℕ)
    (hne : j ≠ i) : (l.set i v)[j]? = l[j]? :=
  List.getElem?_set_ne (fun he => hne he.symm)

theorem reinforceFirst_set {l : List TagInstance} {info : TagInfo} :
    ∀ {i : ℕ} {old : TagInstance}, l[i]? = some old →
      (old.tag_name == info.name) = true →
      (∀ (j : ℕ) (y : TagInstance), j < i → l[j]? = some y →
        (y.tag_name == info.name) = false) →
      reinforceFirst l info = l.set i (reinforceTag old info) := by
  induction l with
  | nil =>
    intro i old hget _ _
    simp at hget
  | cons a tl ih =>
    intro i old hget hname hbefore
    cases i with
    | zero =>
      have ha : a = old := by simpa using hget
      subst ha
      rw [reinforceFirst, if_pos hname]
      rfl
    | succ k =>
      have hne := hbefore 0 a (by omega) (by simp)
      rw [reinforceFirst, if_neg (by simp [hne]),
        ih (by simpa using hget) hname
          (fun j y hj hg => hbefore (j + 1) y (by omega) (by simpa using hg))]
      rfl

/-- **C10.** Reinforcing an existing instance rewrites exactly its slot in its
bucket (same position, same bucket length, all other slots and all other
buckets untouched) and changes only `confidence`, `reinforcement_count`,
`last_reinforced` and `evidence_list` — `tag_name`, `first_seen` and
`decay_rate` are preserved. -/
theorem claim_C10 (p : UserProfile) (cat : String) (info : TagInfo)
    (l : List TagInstance) (i : ℕ) (old : TagInstance)
    (hb : bucketAt p cat info.subcategory = some l)
    (hget : l[i]? = some old)
    (hname : (old.tag_name == info.name) = true)
    (hbefore : ∀ (j : ℕ) (y : TagInstance), j < i → l[j]? = some y →
      (y.tag_name == info.name) = false) :
    bucketAt (updateTagInDimension p cat info) cat info.subcategory
      = some (l.set i (reinforceTag old info)) ∧
    (∀ c s : String, ¬(c = cat ∧ s = info.subcategory) →
      bucketAt (updateTagInDimension p cat info) c s = bucketAt p c s) ∧
    (reinforceTag old info).tag_name = old.tag_name ∧
    (reinforceTag old info).first_seen = old.first_seen ∧
    (reinforceTag old info).decay_rate = old.decay_rate ∧
    (l.set i (reinforceTag old info)).length = l.length ∧
    (∀ j : ℕ, j ≠ i → (l.set i (reinforceTag old info))[j]? = l[j]?) := by
  rw [bucketAt] at hb
  cases hc : lookupKey p.tag_dimensions cat with
  | none =>
    rw [hc] at hb
    simp at hb
  | some subs =>
    rw [hc] at hb
    have hsubs : lookupKey subs info.subcategory = some l := hb
    have hdims : (updateTagInDimension p cat info).tag_dimensions
        = mapAtKey p.tag_dimensions cat (fun subs0 =>
            mapAtKey (ensureKey subs0 info.subcategory) info.subcategory
              (fun l0 =>
                updateTagList (isExclusiveDimension cat info.subcategory) l0 info)) :=
      rfl
    have hmem : old ∈ l := by
      have := List.getElem?_eq_some_iff.1 hget
      obtain ⟨hlen, hval⟩ := this
      exact hval ▸ List.getElem_mem hlen
    have hfs : (l.find? (fun t => t.tag_name == info.name)).isSome = true :=
      List.find?_isSome.2 ⟨old, hmem, hname⟩
    obtain ⟨u, hu⟩ := Option.isSome_iff_exists.1 hfs
    have hupd : updateTagList (isExclusiveDimension cat info.subcategory) l info
        = l.set i (reinforceTag old info) := by
      rw [updateTagList_of_found hu]
      exact reinforceFirst_set hget hname hbefore
    refine ⟨?_, ?_, rfl, rfl, rfl, List.length_set l i _, ?_⟩
    · rw [bucketAt, hdims, lookupKey_mapAtKey_self, hc]
      show lookupKey (mapAtKey (ensureKey subs info.subcategory) info.subcategory
          (fun l0 =>
            updateTagList (isExclusiveDimension cat info.subcategory) l0 info))
          info.subcategory = some (l.set i (reinforceTag old info))
      rw [ensureKey_of_lookup_some hsubs, lookupKey_mapAtKey_self, hsubs]
      show some (updateTagList (isExclusiveDimension cat info.subcategory) l info)
          = some (l.set i (reinforceTag old info))
      exact congrArg some hupd
    · intro c s hcs
      by_cases hcc : c = cat
      · subst hcc
        have hs : s ≠ info.subcategory := fun h => hcs ⟨rfl, h⟩
        rw [bucketAt, bucketAt, hdims, lookupKey_mapAtKey_self, hc]
        show lookupKey (mapAtKey (ensureKey subs info.subcategory) info.subcategory
            (fun l0 =>
              updateTagList (isExclusiveDimension c info.subcategory) l0 info)) s
          = lookupKey subs s
        rw [lookupKey_mapAtKey_ne _ _ hs, lookupKey_ensureKey_ne _ hs]
      · rw [bucketAt, bucketAt, hdims, lookupKey_mapAtKey_ne _ _ hcc]
    · exact fun j hj => set_getElem_other (reinforceTag old info) l i j hj

/-- Witness for C10 on a concrete one-instance profile. -/
theorem claim_C10_witness :
    bucketAt (updateTagInDimension w10profile "用户核心画像" w4obs) "用户核心画像"
        w4obs.subcategory = some ([w4inst].set 0 (reinforceTag w4inst w4obs)) :=
  (claim_C10 w10profile "用户核心画像" w4obs [w4inst] 0 w4inst rfl rfl rfl
    (fun j y hj _ => absurd hj (by omega))).1

end AQSys
